import Mathlib

/-!
Verification of the Review Pipeline of the pr-reviewer repository.

Strings of the TypeScript source are modelled as `List Char`; JavaScript
numbers reaching the pipeline are exact JSON numbers, modelled as `ℚ`;
fallible external calls are modelled as `Except Unit` values supplied by an
environment record.  Each definition is translated from the function of the
same name in `src/core-reviewer.ts` (or the polling/webhook entry files),
with its source location noted in the doc comment.
-/

set_option maxHeartbeats 4000000
set_option maxRecDepth 10000

namespace PRReviewer

/-! ## Character-list utilities (JavaScript string primitives) -/

/-- Model of JavaScript `String.prototype.trim` restricted to ASCII
whitespace (sufficient for the inputs considered). -/
def trimChars (s : List Char) : List Char :=
  ((s.dropWhile Char.isWhitespace).reverse.dropWhile Char.isWhitespace).reverse

/-- Whether `p` is a prefix of `s` (used for JavaScript `startsWith`). -/
def startsWithChars : List Char → List Char → Bool
  | [], _ => true
  | _ :: _, [] => false
  | p :: ps, c :: cs => p = c && startsWithChars ps cs

/-- Whether `suf` is a suffix of `s` (JavaScript `endsWith`). -/
def endsWithChars (s suf : List Char) : Bool :=
  startsWithChars suf.reverse s.reverse

/-- Whether `pat` occurs as a contiguous substring of `s`
(JavaScript `String.prototype.includes`). -/
def containsSub (pat : List Char) : List Char → Bool
  | [] => startsWithChars pat []
  | c :: cs => startsWithChars pat (c :: cs) || containsSub pat cs

/-- Index of the first occurrence of `c`, counting from `i`
(helper for JavaScript `indexOf`). -/
def firstIdxOfAux (c : Char) : List Char → Nat → Option Nat
  | [], _ => none
  | x :: xs, i => if x = c then some i else firstIdxOfAux c xs (i + 1)

/-- Model of JavaScript `String.prototype.indexOf` for a single character
(`none` standing for `-1`). -/
def firstIdxOf (c : Char) (s : List Char) : Option Nat :=
  firstIdxOfAux c s 0

/-- Index of the last occurrence of `c` in `s`. -/
def lastIdxOf (c : Char) (s : List Char) : Option Nat :=
  match firstIdxOf c s.reverse with
  | none => none
  | some k => some (s.length - 1 - k)

/-- Model of JavaScript `String.prototype.split('\n')`: the list of lines,
always nonempty, with the separators removed. -/
def splitOnNl : List Char → List (List Char)
  | [] => [[]]
  | c :: cs =>
    if c = '\n' then [] :: splitOnNl cs
    else
      match splitOnNl cs with
      | l :: ls => (c :: l) :: ls
      | [] => [[c]]

/-- Model of JavaScript `Array.prototype.join('\n')`. -/
def joinNl : List (List Char) → List Char
  | [] => []
  | [l] => l
  | l :: ls => l ++ '\n' :: joinNl ls

/-- Decimal digits of a natural number (JavaScript number-to-string on
naturals). -/
def natToChars (n : Nat) : List Char :=
  Nat.toDigits 10 n

/-- JavaScript number-to-string on integers. -/
def intToChars (i : Int) : List Char :=
  if i < 0 then '-' :: natToChars i.natAbs else natToChars i.natAbs

/-! ## JSON values and a model of the `JSON.parse` builtin -/

/-- A parsed JSON value.  Numbers are kept exactly as rationals, so the
fractional values a JavaScript `JSON.parse` can produce are representable. -/
inductive Json where
  | null
  | bool (b : Bool)
  | num (q : ℚ)
  | str (s : List Char)
  | arr (elems : List Json)
  | obj (fields : List (List Char × Json))

/-- JSON whitespace accepted between tokens. -/
def jsonWs (c : Char) : Bool :=
  c = ' ' || c = '\n' || c = '\t' || c = '\r'

/-- Decimal digit test. -/
def isDigitCh (c : Char) : Bool :=
  '0' ≤ c && c ≤ '9'

/-- Leading digits of a character list, with the rest. -/
def takeDigits : List Char → List Char × List Char
  | [] => ([], [])
  | c :: cs =>
    if isDigitCh c then
      let (ds, r) := takeDigits cs
      (c :: ds, r)
    else ([], c :: cs)

/-- Numeric value of a digit list. -/
def digitsToNat (ds : List Char) : Nat :=
  ds.foldl (fun acc c => acc * 10 + (c.toNat - '0'.toNat)) 0

/-- Decoding of a character following a backslash in a JSON string literal
(`\u` escapes are not modelled; none of the inputs considered use them). -/
def escChar (c : Char) : Char :=
  if c = 'n' then '\n'
  else if c = 't' then '\t'
  else if c = 'r' then '\r'
  else if c = 'b' then Char.ofNat 8
  else if c = 'f' then Char.ofNat 12
  else c

/-- Parse of a JSON number at the head of the input: optional minus,
integer digits, optional fraction (exponents are not modelled; none of the
inputs considered use them). -/
def parseNumAt (s : List Char) : Option (ℚ × List Char) :=
  let (neg, s1) :=
    match s with
    | '-' :: rest => (true, rest)
    | _ => (false, s)
  let (ds, s2) := takeDigits s1
  if ds = [] then none
  else
    let intPart : ℚ := (digitsToNat ds : ℚ)
    let (q, rest) :=
      match s2 with
      | '.' :: s3 =>
        let (fs, s4) := takeDigits s3
        if fs = [] then (intPart, ('.' :: s3))
        else (intPart + (digitsToNat fs : ℚ) / ((10 : ℚ) ^ fs.length), s4)
      | _ => (intPart, s2)
    some (if neg then -q else q, rest)

mutual

/-- Fuel-bounded recursive-descent parse of one JSON value; models the
`JSON.parse` builtin on the grammar subset exercised by this development. -/
def parseValue : Nat → List Char → Option (Json × List Char)
  | 0, _ => none
  | Nat.succ fuel, s =>
    match s.dropWhile jsonWs with
    | [] => none
    | c :: cs =>
      if c = '"' then
        match parseStrLit fuel cs with
        | some (str, rest) => some (Json.str str, rest)
        | none => none
      else if c = '[' then
        match (cs.dropWhile jsonWs) with
        | ']' :: rest => some (Json.arr [], rest)
        | _ =>
          match parseElems fuel cs with
          | some (vs, rest) => some (Json.arr vs, rest)
          | none => none
      else if c = '{' then
        match (cs.dropWhile jsonWs) with
        | '}' :: rest => some (Json.obj [], rest)
        | _ =>
          match parseFields fuel cs with
          | some (fs, rest) => some (Json.obj fs, rest)
          | none => none
      else if c = 't' then
        if startsWithChars ['r', 'u', 'e'] cs then some (Json.bool true, cs.drop 3) else none
      else if c = 'f' then
        if startsWithChars ['a', 'l', 's', 'e'] cs then some (Json.bool false, cs.drop 4) else none
      else if c = 'n' then
        if startsWithChars ['u', 'l', 'l'] cs then some (Json.null, cs.drop 3) else none
      else
        match parseNumAt (c :: cs) with
        | some (q, rest) => some (Json.num q, rest)
        | none => none

/-- Comma-separated array elements after `[`, up to and including `]`. -/
def parseElems : Nat → List Char → Option (List Json × List Char)
  | 0, _ => none
  | Nat.succ fuel, s =>
    match parseValue fuel s with
    | none => none
    | some (v, rest) =>
      match rest.dropWhile jsonWs with
      | ',' :: rest2 =>
        match parseElems fuel rest2 with
        | some (vs, r) => some (v :: vs, r)
        | none => none
      | ']' :: rest2 => some ([v], rest2)
      | _ => none

/-- Comma-separated object members after an opening brace, up to and
including the closing brace. -/
def parseFields : Nat → List Char → Option (List (List Char × Json) × List Char)
  | 0, _ => none
  | Nat.succ fuel, s =>
    match s.dropWhile jsonWs with
    | '"' :: cs =>
      match parseStrLit fuel cs with
      | none => none
      | some (key, rest) =>
        match rest.dropWhile jsonWs with
        | ':' :: rest2 =>
          match parseValue fuel rest2 with
          | none => none
          | some (v, rest3) =>
            match rest3.dropWhile jsonWs with
            | ',' :: rest4 =>
              match parseFields fuel rest4 with
              | some (fs, r) => some ((key, v) :: fs, r)
              | none => none
            | '}' :: rest4 => some ([(key, v)], rest4)
            | _ => none
        | _ => none
    | _ => none

/-- Body of a JSON string literal after the opening quote, up to and
including the closing quote. -/
def parseStrLit : Nat → List Char → Option (List Char × List Char)
  | 0, _ => none
  | Nat.succ fuel, s =>
    match s with
    | [] => none
    | c :: cs =>
      if c = '"' then some ([], cs)
      else if c = '\\' then
        match cs with
        | [] => none
        | e :: cs2 =>
          match parseStrLit fuel cs2 with
          | some (r, rest) => some (escChar e :: r, rest)
          | none => none
      else
        match parseStrLit fuel cs with
        | some (r, rest) => some (c :: r, rest)
        | none => none

end

/-- Model of `JSON.parse`: one value, with only whitespace allowed after
it; `none` models the thrown `SyntaxError`. -/
def parseJson (s : List Char) : Option Json :=
  match parseValue (s.length + 1) s with
  | some (v, rest) => if rest.dropWhile jsonWs = [] then some v else none
  | none => none

/-! ## repairIncompleteJson (src/core-reviewer.ts lines 523-589) -/

/-- Scanner state of `repairIncompleteJson`: bracket/brace counters, the
string/escape flags, and the index of the last object closed at array
nesting depth 1 (`-1` when none). -/
structure RepairScan where
  openBrackets : Int
  openBraces : Int
  inString : Bool
  escaped : Bool
  lastCompleteObjectIndex : Int
deriving DecidableEq

/-- One character step of the `repairIncompleteJson` scan loop
(src/core-reviewer.ts lines 535-565), faithful to the `continue`
structure: an escaped character is skipped, a backslash sets the escape
flag, a quote toggles string state, and brackets are only counted outside
strings. -/
def repairStep (st : RepairScan) (i : Nat) (c : Char) : RepairScan :=
  if st.escaped then
    ⟨st.openBrackets, st.openBraces, st.inString, false, st.lastCompleteObjectIndex⟩
  else if c = '\\' then
    ⟨st.openBrackets, st.openBraces, st.inString, true, st.lastCompleteObjectIndex⟩
  else if c = '"' then
    ⟨st.openBrackets, st.openBraces, !st.inString, false, st.lastCompleteObjectIndex⟩
  else if st.inString then st
  else if c = '[' then
    ⟨st.openBrackets + 1, st.openBraces, st.inString, false, st.lastCompleteObjectIndex⟩
  else if c = ']' then
    ⟨st.openBrackets - 1, st.openBraces, st.inString, false, st.lastCompleteObjectIndex⟩
  else if c = '{' then
    ⟨st.openBrackets, st.openBraces + 1, st.inString, false, st.lastCompleteObjectIndex⟩
  else if c = '}' then
    let ob := st.openBraces - 1
    ⟨st.openBrackets, ob, st.inString, false,
      if ob = 0 ∧ st.openBrackets = 1 then (i : Int) else st.lastCompleteObjectIndex⟩
  else st

/-- Fold of `repairStep` over the characters with their indices. -/
def repairScanGo : List Char → Nat → RepairScan → RepairScan
  | [], _, st => st
  | c :: cs, i, st => repairScanGo cs (i + 1) (repairStep st i c)

/-- Model of `repairIncompleteJson` (src/core-reviewer.ts lines 523-589):
trim, scan for unbalanced brackets/braces, truncate to the last complete
top-level object when something is unbalanced, then append the closing
characters counted by the scan.  Note the appended counts are the ones of
the full scan, not recomputed after the truncation, exactly as in the
source. -/
def repairIncompleteJson (jsonString : List Char) : List Char :=
  let s := trimChars jsonString
  let st := repairScanGo s 0 ⟨0, 0, false, false, -1⟩
  let t :=
    if (st.openBraces > 0 ∨ st.openBrackets > 1) ∧ st.lastCompleteObjectIndex > -1 then
      s.take (st.lastCompleteObjectIndex.toNat + 1)
    else s
  t ++ List.replicate st.openBraces.toNat '}' ++ List.replicate st.openBrackets.toNat ']'

/-! ## Post-parse validation (src/core-reviewer.ts lines 484-515) -/

/-- Field-name constant. -/
def pathKey : List Char := ("path").toList

/-- Field-name constant. -/
def lineKey : List Char := ("line").toList

/-- Field-name constant. -/
def severityKey : List Char := ("severity").toList

/-- Field-name constant. -/
def messageKey : List Char := ("message").toList

/-- Field-name constant. -/
def suggestionKey : List Char := ("suggestion").toList

/-- Lookup of an object member (last occurrence wins, as for duplicate keys
in `JSON.parse`). -/
def lookupField (fields : List (List Char × Json)) (k : List Char) : Option Json :=
  (fields.reverse.find? (fun kv => kv.1 = k)).map (fun kv => kv.2)

/-- Total property read on a JSON value: `none` models `undefined` (absent
member, or member access on a non-object primitive). -/
def fieldOf (c : Json) (k : List Char) : Option Json :=
  match c with
  | Json.obj fs => lookupField fs k
  | _ => none

/-- Property access as JavaScript performs it: reading a property of `null`
throws a `TypeError`, modelled by `Except.error`; every other JSON value
yields the member or `undefined`. -/
def jsGet (c : Json) (k : List Char) : Except Unit (Option Json) :=
  match c with
  | Json.null => Except.error ()
  | _ => Except.ok (fieldOf c k)

/-- JavaScript truthiness of a possibly-`undefined` JSON value. -/
def truthy (v : Option Json) : Bool :=
  match v with
  | none => false
  | some Json.null => false
  | some (Json.bool b) => b
  | some (Json.num q) => q ≠ 0
  | some (Json.str s) => s ≠ []
  | some (Json.arr _) => true
  | some (Json.obj _) => true

/-- Membership of the severity value in `['error', 'warning', 'info']`,
with the strict equality `includes` uses (only those exact strings pass). -/
def sevOkB (v : Option Json) : Bool :=
  match v with
  | some (Json.str s) =>
    s = ("error").toList || s = ("warning").toList || s = ("info").toList
  | _ => false

/-- The `typeof comment.line === 'number' && comment.line > 0` check of the
validation filter (note: no integrality requirement). -/
def lineOkB (v : Option Json) : Bool :=
  match v with
  | some (Json.num q) => 0 < q
  | _ => false

/-- One validation step of the filter callback (src/core-reviewer.ts lines
493-512), with the short-circuit access order of
`!comment.path || !comment.message || !comment.line || !comment.severity`:
a `null` element raises on its very first property access. -/
def validateOne (c : Json) : Except Unit Bool :=
  match jsGet c pathKey with
  | Except.error e => Except.error e
  | Except.ok p =>
    if truthy p = false then Except.ok false
    else
      match jsGet c messageKey with
      | Except.error e => Except.error e
      | Except.ok m =>
        if truthy m = false then Except.ok false
        else
          match jsGet c lineKey with
          | Except.error e => Except.error e
          | Except.ok l =>
            if truthy l = false then Except.ok false
            else
              match jsGet c severityKey with
              | Except.error e => Except.error e
              | Except.ok sv =>
                if truthy sv = false then Except.ok false
                else if sevOkB sv = false then Except.ok false
                else if lineOkB l = false then Except.ok false
                else Except.ok true

/-- The `Array.prototype.filter` run over the parsed elements: an exception
in the callback aborts the whole filter. -/
def validateEx : List Json → Except Unit (List Json)
  | [] => Except.ok []
  | c :: cs =>
    match validateOne c with
    | Except.error e => Except.error e
    | Except.ok b =>
      match validateEx cs with
      | Except.error e => Except.error e
      | Except.ok rest => Except.ok (if b then c :: rest else rest)

/-- The validation filter as `parseGeminiResponse` runs it: a thrown
`TypeError` is caught by the enclosing `try`, which returns `[]`. -/
def validatedOrEmpty (elems : List Json) : List Json :=
  match validateEx elems with
  | Except.ok l => l
  | Except.error _ => []

/-- Total Boolean equivalent of the filter callback on a non-`null`
element (the checks of src/core-reviewer.ts lines 493-512). -/
def validCommentB (c : Json) : Bool :=
  truthy (fieldOf c pathKey) && truthy (fieldOf c messageKey) &&
    truthy (fieldOf c lineKey) && truthy (fieldOf c severityKey) &&
    sevOkB (fieldOf c severityKey) && lineOkB (fieldOf c lineKey)

/-- Whether a JSON value is the literal `null`. -/
def isNullB : Json → Bool
  | Json.null => true
  | _ => false

/-- Whether `Json.null` occurs in a list of elements. -/
def containsNullB : List Json → Bool
  | [] => false
  | c :: cs => isNullB c || containsNullB cs

/-- Validity of a candidate element as claim C3 words it: non-empty
(string) path and message, severity in the closed set, and an integer line
at least 1. -/
def claimValidB (c : Json) : Bool :=
  (match fieldOf c pathKey with
   | some (Json.str s) => s ≠ []
   | _ => false) &&
  (match fieldOf c messageKey with
   | some (Json.str s) => s ≠ []
   | _ => false) &&
  sevOkB (fieldOf c severityKey) &&
  (match fieldOf c lineKey with
   | some (Json.num q) => q.den = 1 && 1 ≤ q
   | _ => false)

/-! ## parseGeminiResponse (src/core-reviewer.ts lines 427-521) -/

/-- Model of `response.match(/\[[\s\S]*\]/)`: the span from the first `[`
to the last `]` after it, `none` when the pattern cannot match. -/
def jsonMatchSpan (response : List Char) : Option (List Char) :=
  match lastIdxOf ']' response with
  | none => none
  | some j =>
    match firstIdxOf '[' response with
    | none => none
    | some i => if i < j then some ((response.drop i).take (j + 1 - i)) else none

/-- The final `Array.isArray` check: the elements when the parsed value is
an array, otherwise the empty result. -/
def arrOrEmpty (v : Json) : List Json :=
  match v with
  | Json.arr elems => validatedOrEmpty elems
  | _ => []

/-- Model of `parseGeminiResponse` (src/core-reviewer.ts lines 427-521):
parse the whole trimmed text and require an array; otherwise extract the
first-`[`-to-last-`]` span and parse it, repairing on failure; otherwise
repair from the first `[` onward; return `[]` when everything fails.  The
result is passed through the validation filter; the `filename` argument of
the source is used only for diagnostics and is omitted.  This function is
total: no failure escapes to the caller. -/
def parseGeminiResponse (response : List Char) : List Json :=
  match parseJson (trimChars response) with
  | some (Json.arr elems) => validatedOrEmpty elems
  | _ =>
    match jsonMatchSpan response with
    | some span =>
      match parseJson span with
      | some v => arrOrEmpty v
      | none =>
        match parseJson (repairIncompleteJson span) with
        | some v => arrOrEmpty v
        | none => []
    | none =>
      match firstIdxOf '[' response with
      | some i =>
        match parseJson (repairIncompleteJson (response.drop i)) with
        | some v => arrOrEmpty v
        | none => []
      | none => []

/-! ## splitIntoHunks (src/core-reviewer.ts lines 217-282) -/

/-- One produced chunk.  The source stores
`content: [...headerLines, ...currentHunk].join('\n')`; the two
concatenands are kept separate here (`content` below joins them), so the
portion after the shared header is directly addressable. -/
structure Chunk where
  header : List (List Char)
  body : List (List Char)
  additions : Nat
  deletions : Nat

/-- Joined content of a chunk, as the source stores it. -/
def Chunk.content (ch : Chunk) : List Char :=
  joinNl (ch.header ++ ch.body)

/-- Hunk-header test `line.startsWith('@@')`. -/
def isHunkHeader (l : List Char) : Bool :=
  startsWithChars (['@', '@']) l

/-- Capture of the file header lines (src/core-reviewer.ts lines 225-228):
up to the first 10 lines, stopping at the first hunk header. -/
def captureHeaders (diffLines : List (List Char)) : List (List Char) :=
  (diffLines.take 10).takeWhile (fun l => !isHunkHeader l)

/-- Added-line test: starts with `+` but not `+++`. -/
def isAddedLine (l : List Char) : Bool :=
  startsWithChars ['+'] l && !startsWithChars ['+', '+', '+'] l

/-- Removed-line test: starts with `-` but not `---`. -/
def isRemovedLine (l : List Char) : Bool :=
  startsWithChars ['-'] l && !startsWithChars ['-', '-', '-'] l

/-- Main loop of `splitIntoHunks` (src/core-reviewer.ts lines 230-275)
over the remaining lines, carrying the current hunk and its counters.
Note the source iterates over ALL of `diffLines`, including the lines
already captured as headers. -/
def splitLoop (headerLines : List (List Char)) :
    List (List Char) → List (List Char) → Nat → Nat → List Chunk
  | [], cur, a, d =>
    if cur.length > 0 then [⟨headerLines, cur, a, d⟩] else []
  | l :: ls, cur, a, d =>
    if isHunkHeader l then
      (if cur.length > 0 then [⟨headerLines, cur, a, d⟩] else []) ++
        splitLoop headerLines ls [l] 0 0
    else
      let cur' := cur ++ [l]
      let a' := if isAddedLine l then a + 1 else a
      let d' := if isRemovedLine l then d + 1 else d
      if cur'.length > 100 then
        ⟨headerLines, cur', a', d'⟩ :: splitLoop headerLines ls [] 0 0
      else
        splitLoop headerLines ls cur' a' d'

/-- Model of `splitIntoHunks` (src/core-reviewer.ts lines 217-282) on the
already-split diff lines. -/
def splitIntoHunks (diffLines : List (List Char)) : List Chunk :=
  let headerLines := captureHeaders diffLines
  let hunks := splitLoop headerLines diffLines [] 0 0
  if hunks.length > 0 then hunks else [⟨[], diffLines, 0, 0⟩]

/-! ## Prompt building (src/core-reviewer.ts lines 284-331) -/

/-- Model of `calculateMaxDiffLength` (src/core-reviewer.ts lines
323-331): base budget 1500 plus `min(additions*10, 1000)`. -/
def calculateMaxDiffLength (additions : Nat) : Nat :=
  1500 + min (additions * 10) 1000

/-- The literal truncation marker line appended by `buildPrompt`. -/
def truncationMarker : List Char :=
  ("... (content truncated for brevity)").toList

/-- The line-accumulation loop of `buildPrompt` (src/core-reviewer.ts
lines 299-309): keep whole lines while they fit, counting one extra
character per newline; on overflow push the marker and stop. -/
def truncLoop (maxLen : Nat) : List (List Char) → Nat → List (List Char)
  | [], _ => []
  | l :: ls, cur =>
    if cur + l.length > maxLen then [truncationMarker]
    else l :: truncLoop maxLen ls (cur + l.length + 1)

/-- The diff portion of the prompt (src/core-reviewer.ts lines 292-312):
the patch itself when within budget, otherwise the joined kept lines with
the truncation marker. -/
def buildPromptDiff (patch : List Char) (additions : Nat) : List Char :=
  let maxLen := calculateMaxDiffLength additions
  if maxLen < patch.length then joinNl (truncLoop maxLen (splitOnNl patch) 0)
  else patch

/-- The fixed instruction portion of the prompt (src/core-reviewer.ts
lines 285-290). -/
def systemPromptChars : List Char :=
  ("Code security reviewer. Find critical bugs, security vulnerabilities, performance issues. Return ONLY valid JSON array.\n\nFormat: [\x7b\"path\":\"file.ts\",\"line\":1,\"severity\":\"error|warning|info\",\"message\":\"brief issue\",\"suggestion\":\"concise fix\"\x7d]\n\nFocus on: SQL injection, XSS, hardcoded secrets, command injection, path traversal, prototype pollution, insecure crypto.\nRules: Only significant issues, prioritize security/errors over style, use + line numbers, return [] if clean.").toList

/-- Model of `buildPrompt` (src/core-reviewer.ts lines 284-321): the fixed
instructions followed by the file banner, the (possibly truncated) diff,
and the closing directive. -/
def buildPrompt (filename : List Char) (additions deletions : Nat) (patch : List Char) :
    List Char :=
  systemPromptChars ++ ("\n\nFile: ").toList ++ filename ++ (" (+").toList ++
    natToChars additions ++ ("/-").toList ++ natToChars deletions ++ (")\n\n").toList ++
    buildPromptDiff patch additions ++ ("\n\nJSON only:").toList

/-! ## ReviewComment, dedup and posting (src/core-reviewer.ts lines 5-11,
625-714) -/

/-- The `severity` union of the `ReviewComment` interface. -/
inductive Severity where
  | info
  | warning
  | error
deriving DecidableEq

/-- The `ReviewComment` interface (src/core-reviewer.ts lines 5-11), with
`line` kept as the exact JSON number it was parsed from. -/
structure ReviewComment where
  path : List Char
  line : ℚ
  severity : Severity
  message : List Char
  suggestion : Option (List Char)
deriving DecidableEq

/-- String field read with empty-string default (conversion of a validated
JSON element into the `ReviewComment` shape). -/
def strFieldD (j : Json) (k : List Char) : List Char :=
  match fieldOf j k with
  | some (Json.str s) => s
  | _ => []

/-- Numeric field read with zero default. -/
def numFieldD (j : Json) (k : List Char) : ℚ :=
  match fieldOf j k with
  | some (Json.num q) => q
  | _ => 0

/-- Severity field read (a validated element always carries one of the
three strings). -/
def sevFieldD (j : Json) : Severity :=
  match fieldOf j severityKey with
  | some (Json.str s) =>
    if s = ("error").toList then Severity.error
    else if s = ("warning").toList then Severity.warning
    else Severity.info
  | _ => Severity.info

/-- Optional suggestion field read. -/
def sugFieldD (j : Json) : Option (List Char) :=
  match fieldOf j suggestionKey with
  | some (Json.str s) => some s
  | _ => none

/-- View of a validated JSON element as the `ReviewComment` interface the
rest of the pipeline is typed against.  A validated element always has a
truthy path/message and a numeric line; for the degenerate truthy-but-not-
string path the embedding defaults to the empty string. -/
def jsonToRC (j : Json) : ReviewComment :=
  ⟨strFieldD j pathKey, numFieldD j lineKey, sevFieldD j, strFieldD j messageKey, sugFieldD j⟩

/-- Rendering of a line number for the dedup key.  On the integer line
numbers produced by a well-formed response this agrees with the JavaScript
template `${comment.line}`; for the (never API-accepted) fractional case
an exact num/den rendering is used. -/
def ratKeyChars (q : ℚ) : List Char :=
  if q.den = 1 then intToChars q.num else intToChars q.num ++ '/' :: natToChars q.den

/-- The dedup key `` `${comment.path}:${comment.line}` `` of
src/core-reviewer.ts lines 612 and 627. -/
def rcKey (c : ReviewComment) : List Char :=
  c.path ++ ':' :: ratKeyChars c.line

/-- Model of `filterDuplicateComments` (src/core-reviewer.ts lines
625-630): keep exactly the comments whose `path:line` key is not already
present in the existing-key set. -/
def filterDuplicateComments (comments : List ReviewComment)
    (existing : List (List Char)) : List ReviewComment :=
  comments.filter (fun c => !(decide (rcKey c ∈ existing)))

/-- Rewriting of a comment's message only, leaving path, line, severity
and suggestion unchanged (used to state that deduplication ignores message
content). -/
def msgMap (f : List Char → List Char) (c : ReviewComment) : ReviewComment :=
  ⟨c.path, c.line, c.severity, f c.message, c.suggestion⟩

/-- Severity glyph of `formatCommentBody` (src/core-reviewer.ts lines
668-672). -/
def severityEmoji (s : Severity) : List Char :=
  match s with
  | Severity.error => ("🔴").toList
  | Severity.warning => ("🟡").toList
  | Severity.info => ("🔵").toList

/-- Uppercase severity label. -/
def severityUpper (s : Severity) : List Char :=
  match s with
  | Severity.error => ("ERROR").toList
  | Severity.warning => ("WARNING").toList
  | Severity.info => ("INFO").toList

/-- Model of `formatCommentBody` (src/core-reviewer.ts lines 667-683):
banner, glyph + label + message, optional suggestion block, attribution
footer. -/
def formatCommentBody (c : ReviewComment) : List Char :=
  ("🤖 **AI CODE REVIEW** 🤖\n\n").toList ++ severityEmoji c.severity ++
    (" **").toList ++ severityUpper c.severity ++ ("**: ").toList ++ c.message ++
    (match c.suggestion with
     | some s =>
       if s ≠ [] then
         ("\n\n**🔧 AI Suggested fix:**\n```suggestion\n").toList ++ s ++ ("\n```").toList
       else []
     | none => []) ++
    ("\n\n---\n🤖 *This comment was automatically generated by Gemini AI* 🤖\n*Self-hosted PR Reviewer - Not a human review*").toList

/-- Model of `buildSummaryComment` (src/core-reviewer.ts lines 685-713). -/
def buildSummaryComment (errors warnings info : Nat) : List Char :=
  if errors + warnings + info = 0 then
    ("🤖 **AI CODE REVIEW COMPLETE** 🤖\n\n✅ No issues found in this pull request.\n\n---\n🤖 *Automatically generated by Self-hosted Gemini AI Reviewer*").toList
  else
    ("🤖 **AI CODE REVIEW SUMMARY** 🤖\n\n").toList ++
      (if errors > 0 then ("🔴 **").toList ++ natToChars errors ++ ("** error(s) found\n").toList else []) ++
      (if warnings > 0 then ("🟡 **").toList ++ natToChars warnings ++ ("** warning(s) found\n").toList else []) ++
      (if info > 0 then ("🔵 **").toList ++ natToChars info ++ ("** info item(s) found\n").toList else []) ++
      ("\nPlease review the inline AI-generated comments for detailed feedback.").toList ++
      (if errors > 0 then ("\n\n⚠️ **This PR has critical issues that should be addressed before merging.**").toList else []) ++
      ("\n\n---\n🤖 *Automatically generated by Self-hosted Gemini AI Reviewer*").toList

/-- One inline comment of the posted review request. -/
structure InlineComment where
  path : List Char
  line : ℚ
  body : List Char
deriving DecidableEq

/-- The request `postReviewComments` hands to `pulls.createReview`:
summary body, review event, inline comments. -/
structure ReviewRequest where
  body : List Char
  event : List Char
  comments : List InlineComment
deriving DecidableEq

/-- Model of `postReviewComments` (src/core-reviewer.ts lines 632-665):
`none` when the comment list is empty (the source returns without calling
the API), otherwise the created review request, whose `event` is the
constant `reviewState = 'COMMENT'`. -/
def postReviewComments (comments : List ReviewComment) : Option ReviewRequest :=
  if comments.length = 0 then none
  else
    let errorCount := (comments.filter (fun c => decide (c.severity = Severity.error))).length
    let warningCount := (comments.filter (fun c => decide (c.severity = Severity.warning))).length
    let infoCount := (comments.filter (fun c => decide (c.severity = Severity.info))).length
    some ⟨buildSummaryComment errorCount warningCount infoCount, ("COMMENT").toList,
      comments.map (fun c => ⟨c.path, c.line, formatCommentBody c⟩)⟩

/-! ## Review environment and orchestrator (src/core-reviewer.ts lines
39-215, 591-623) -/

/-- Pull-request metadata consumed by the orchestrator
(`pulls.get` result). -/
structure PullData where
  draft : Bool
  state : List Char
  head_sha : List Char

/-- A changed file as returned by `pulls.listFiles`. -/
structure ChangedFile where
  filename : List Char
  status : List Char
  changes : Nat
  additions : Nat
  deletions : Nat
  patch : Option (List Char)

/-- One comment of `pulls.listCommentsForReview` (only the fields the code
reads; `none` models an absent field). -/
structure PRComment where
  path : Option (List Char)
  line : Option Nat

/-- One review of `pulls.listReviews`, together with the outcome of the
nested `listCommentsForReview` call the code makes for it. -/
structure ReviewInfo where
  body : Option (List Char)
  commentsResult : Except Unit (List PRComment)

/-- The external collaborators of one `reviewPullRequest` invocation, each
fallible call modelled by its outcome. -/
structure ReviewEnv where
  octokit : Bool
  pull : Except Unit PullData
  files : Except Unit (List ChangedFile)
  reviews : Except Unit (List ReviewInfo)
  gemini : List Char → Except Unit (List Char)
  post : Except Unit Unit

/-- The configuration fields the orchestrator reads. -/
structure ReviewConfig where
  maxFiles : Nat
  maxLinesPerFile : Nat

/-- The fixed extension blocklist of `isReviewableFile`
(src/core-reviewer.ts lines 144-147). -/
def nonReviewableExtensions : List (List Char) :=
  [(".min.js").toList, (".map").toList, (".lock").toList, (".svg").toList,
   (".png").toList, (".jpg").toList, (".jpeg").toList, (".gif").toList,
   (".pdf").toList, (".zip").toList, (".tar").toList, (".gz").toList,
   (".exe").toList, (".dll").toList, (".so").toList, (".dylib").toList]

/-- Model of `isReviewableFile` (src/core-reviewer.ts lines 136-155). -/
def isReviewableFile (cfg : ReviewConfig) (f : ChangedFile) : Bool :=
  if f.status = ("removed").toList then false
  else if f.changes > cfg.maxLinesPerFile then false
  else if nonReviewableExtensions.any
      (fun ext => endsWithChars (f.filename.map Char.toLower) ext) then false
  else true

/-- Attribution test on a review body (src/core-reviewer.ts line 602). -/
def attributedBody (b : Option (List Char)) : Bool :=
  match b with
  | none => false
  | some s =>
    containsSub (("🤖 AI CODE REVIEW 🤖").toList) s ||
      containsSub (("Generated by Gemini AI").toList) s

/-- Dedup key of an already-posted comment, when its path and line are
both truthy (src/core-reviewer.ts lines 610-614). -/
def commentKeyOf (c : PRComment) : Option (List Char) :=
  match c.path, c.line with
  | some p, some n => if p ≠ [] ∧ n ≠ 0 then some (p ++ ':' :: natToChars n) else none
  | _, _ => none

/-- Key collection over the attributed reviews; a failing nested comment
fetch aborts the whole collection (it is inside the same `try`). -/
def collectKeys : List ReviewInfo → Except Unit (List (List Char))
  | [] => Except.ok []
  | r :: rs =>
    if attributedBody r.body then
      match r.commentsResult with
      | Except.error e => Except.error e
      | Except.ok cs =>
        match collectKeys rs with
        | Except.error e => Except.error e
        | Except.ok rest => Except.ok (cs.filterMap commentKeyOf ++ rest)
    else collectKeys rs

/-- Model of `getExistingComments` (src/core-reviewer.ts lines 591-623):
the set of `path:line` keys of this system's prior comments, and the empty
set when any fetch fails (the `catch` swallows the error). -/
def getExistingComments (env : ReviewEnv) : List (List Char) :=
  match env.reviews with
  | Except.error _ => []
  | Except.ok rs =>
    match collectKeys rs with
    | Except.ok keys => keys
    | Except.error _ => []

/-- Patch text with the empty default of `file.patch?.length || 0`. -/
def patchD (f : ChangedFile) : List Char :=
  match f.patch with
  | some p => p
  | none => []

/-- Truthiness of `file.patch` (the guard at src/core-reviewer.ts line
110). -/
def patchTruthy (f : ChangedFile) : Bool :=
  match f.patch with
  | some p => p ≠ []
  | none => false

/-- Model of `reviewLargeFile` (src/core-reviewer.ts lines 177-215): split
into chunks, prompt and parse each, concatenate; a failing chunk
contributes nothing (its `catch`). -/
def reviewLargeFileM (env : ReviewEnv) (f : ChangedFile) : List Json :=
  ((splitIntoHunks (splitOnNl (patchD f))).map (fun h =>
    match env.gemini (buildPrompt f.filename h.additions h.deletions h.content) with
    | Except.error _ => []
    | Except.ok text => parseGeminiResponse text)).flatten

/-- Model of `reviewFile` (src/core-reviewer.ts lines 157-175): chunked
path for diffs over 3000 characters with more than 50 additions, single
prompt otherwise; failures yield `[]` (its `catch`). -/
def reviewFileM (env : ReviewEnv) (f : ChangedFile) : List Json :=
  if (patchD f).length > 3000 ∧ f.additions > 50 then reviewLargeFileM env f
  else
    match env.gemini (buildPrompt f.filename f.additions f.deletions (patchD f)) with
    | Except.error _ => []
    | Except.ok text => parseGeminiResponse text

/-- Model of `reviewPullRequest` (src/core-reviewer.ts lines 50-134).  The
skip conditions return `Except.ok` (terminal, not an error); the
pull/files fetch and the final posting propagate their failure (the outer
`catch` logs and rethrows). -/
def reviewPullRequest (cfg : ReviewConfig) (env : ReviewEnv) : Except Unit Unit :=
  if env.octokit = false then Except.ok ()
  else
    match env.pull with
    | Except.error e => Except.error e
    | Except.ok pull =>
      if pull.draft then Except.ok ()
      else if pull.state ≠ ("open").toList then Except.ok ()
      else
        match env.files with
        | Except.error e => Except.error e
        | Except.ok files =>
          if files.length = 0 then Except.ok ()
          else
            let reviewable := (files.filter (isReviewableFile cfg)).take cfg.maxFiles
            if reviewable.length = 0 then Except.ok ()
            else
              let existing := getExistingComments env
              let allComments :=
                reviewable.flatMap (fun f => if patchTruthy f then reviewFileM env f else [])
              let newComments :=
                filterDuplicateComments (allComments.map jsonToRC) existing
              if newComments.length = 0 then Except.ok ()
              else
                match postReviewComments newComments with
                | none => Except.ok ()
                | some _ => env.post

/-! ## Idempotency tracking (polling entry, lines 591-628; webhook entry,
lines 122-133 and 192-216) -/

/-- Generic lookup in the JavaScript `Map` modelled as an association
list. -/
def mapGet {V : Type} (m : List (List Char × V)) (k : List Char) : Option V :=
  match m.find? (fun kv => kv.1 = k) with
  | some kv => some kv.2
  | none => none

/-- Generic `Map.set`: replace in place or append. -/
def mapSet {V : Type} : List (List Char × V) → List Char → V → List (List Char × V)
  | [], k, v => [(k, v)]
  | (k', v') :: rest, k, v =>
    if k' = k then (k, v) :: rest else (k', v') :: mapSet rest k v

/-- The record the polling server stores per PR key. -/
structure PollRecord where
  id : List Char
  updated_at : List Char
  head_sha : List Char
deriving DecidableEq

/-- The record the webhook server stores per PR key. -/
structure WebRecord where
  id : List Char
  head_sha : List Char
  reviewed_at : List Char
deriving DecidableEq

/-- The polling server's `processedPRs` map. -/
abbrev PollMap := List (List Char × PollRecord)

/-- The webhook server's `processedPRs` map. -/
abbrev WebMap := List (List Char × WebRecord)

/-- The polling path's decision `isNew || hasNewCommits` (polling entry,
lines 595-599): review iff no record exists or the stored commit hash
differs from the head commit. -/
def pollingShouldReview (m : PollMap) (key sha : List Char) : Bool :=
  match mapGet m key with
  | none => true
  | some r => !(sha = r.head_sha)

/-- The webhook path's decision (webhook entry, lines 122-133): skip iff a
record exists and its stored hash equals the head commit. -/
def webhookShouldReview (m : WebMap) (key sha : List Char) : Bool :=
  match mapGet m key with
  | none => true
  | some r => !(r.head_sha = sha)

/-- One PR step of `scanRepository` (polling entry, lines 591-628): when
the decision says review, run the review and record the head commit only
if it resolved; an exception leaves the map unchanged. -/
def pollingScanStep (m : PollMap) (cfg : ReviewConfig) (env : ReviewEnv)
    (key id upd sha : List Char) : PollMap :=
  if pollingShouldReview m key sha then
    match reviewPullRequest cfg env with
    | Except.ok _ => mapSet m key ⟨id, upd, sha⟩
    | Except.error _ => m
  else m

/-- Model of `processPRReview` (webhook entry, lines 192-216): run the
review, record the head commit only if it resolved; an exception leaves
the map unchanged. -/
def processPRReview (m : WebMap) (cfg : ReviewConfig) (env : ReviewEnv)
    (key id sha ts : List Char) : WebMap :=
  match reviewPullRequest cfg env with
  | Except.ok _ => mapSet m key ⟨id, sha, ts⟩
  | Except.error _ => m

/-! ## Concrete inputs used by the witnesses and counterexamples -/

/-- A JSON array with one complete object element and a dangling partial
second element, the shape claim C1 quantifies over with k = 1:
`[{"a":1},{"b":`. -/
def exC1 : List Char := ("[\x7b\"a\":1\x7d,\x7b\"b\":").toList

/-- What `repairIncompleteJson` actually produces on `exC1`:
`[{"a":1}}]`, carrying a spurious closing brace. -/
def exC1broken : List Char := ("[\x7b\"a\":1\x7d\x7d]").toList

/-- The output claim C1 predicts on `exC1`: the array of the first
complete element, `[{"a":1}]`. -/
def exC1claim : List Char := ("[\x7b\"a\":1\x7d]").toList

/-- A three-line diff: one header line, one hunk header, one added line. -/
def exC2a : List (List Char) :=
  [("h").toList, ("@@ -1 +1 @@").toList, ("+x").toList]

/-- A 102-line diff whose single hunk exceeds the 100-line chunk bound. -/
def exC2b : List (List Char) :=
  ("@@h").toList :: List.replicate 101 (("+a").toList)

/-- A well-formed candidate comment element. -/
def exC3good : Json :=
  Json.obj [(pathKey, Json.str ("a").toList), (lineKey, Json.num 2),
    (severityKey, Json.str ("error").toList), (messageKey, Json.str ("m").toList)]

/-- The rational 3/2, the value `JSON.parse` produces for the literal
`1.5`, given by its reduced numerator and denominator. -/
def threeHalves : ℚ := ⟨3, 2, by decide, by decide⟩

/-- A candidate comment element with the non-integer line number 3/2
(JSON `1.5`). -/
def exC3e15 : Json :=
  Json.obj [(pathKey, Json.str ("a").toList), (lineKey, Json.num threeHalves),
    (severityKey, Json.str ("error").toList), (messageKey, Json.str ("m").toList)]

/-- A 1502-character patch: a 1499-character line, an empty line, and a
one-character line.  The kept prefix reaches accumulated length 1501
before the marker is appended. -/
def exC4patch : List Char :=
  List.replicate 1499 'a' ++ '\n' :: '\n' :: ['x']

/-- A model response carrying one valid comment inside surrounding
prose. -/
def exC6resp : List Char :=
  ("Sure: [\x7b\"path\":\"a\",\"line\":1,\"severity\":\"error\",\"message\":\"m\"\x7d] bye").toList

/-- A model response with no JSON array at all. -/
def exC6none : List Char := ("no array here").toList

/-- A concrete review comment. -/
def exComment : ReviewComment :=
  ⟨("a.ts").toList, 10, Severity.error, ("msg").toList, none⟩

/-- A concrete environment whose pull request is a draft (every other
collaborator succeeds). -/
def envDraft : ReviewEnv :=
  ⟨true, Except.ok ⟨true, ("open").toList, ("sha1").toList⟩, Except.ok [],
    Except.ok [], fun _ => Except.ok (("[]").toList), Except.ok ()⟩

/-- A concrete environment whose review-list fetch fails. -/
def envRevFail : ReviewEnv :=
  ⟨true, Except.ok ⟨false, ("open").toList, ("sha1").toList⟩, Except.ok [],
    Except.error (), fun _ => Except.ok (("[]").toList), Except.ok ()⟩

/-- A concrete configuration. -/
def cfg0 : ReviewConfig := ⟨10, 500⟩

/-- A concrete PR key. -/
def key0 : List Char := ("o/r#1").toList

/-- A concrete commit hash. -/
def sha1c : List Char := ("sha1").toList

/-- Another concrete commit hash. -/
def sha2c : List Char := ("sha2").toList

/-! ## General helper lemmas -/

theorem mem_of_mem_dropWhile {α : Type} (p : α → Bool) :
    ∀ (l : List α) (x : α), x ∈ l.dropWhile p → x ∈ l := by
  intro l
  induction l with
  | nil => intro x h; simp [List.dropWhile] at h
  | cons c cs ih =>
    intro x h
    rw [List.dropWhile_cons] at h
    by_cases hp : p c
    · simp only [hp, if_pos] at h
      exact List.mem_cons_of_mem _ (ih x h)
    · simp only [hp] at h
      simpa using h

theorem mem_trimChars {x : Char} {s : List Char} (h : x ∈ trimChars s) : x ∈ s := by
  rw [trimChars, List.mem_reverse] at h
  have h2 := mem_of_mem_dropWhile _ _ _ h
  rw [List.mem_reverse] at h2
  exact mem_of_mem_dropWhile _ _ _ h2

theorem firstIdxOfAux_none (c : Char) :
    ∀ (s : List Char) (i : Nat), c ∉ s → firstIdxOfAux c s i = none := by
  intro s
  induction s with
  | nil => intro i _; rfl
  | cons x xs ih =>
    intro i h
    simp only [List.mem_cons, not_or] at h
    rw [firstIdxOfAux, if_neg (fun he => h.1 he.symm)]
    exact ih (i + 1) h.2

theorem firstIdxOf_none {c : Char} {s : List Char} (h : c ∉ s) : firstIdxOf c s = none :=
  firstIdxOfAux_none c s 0 h

theorem parseValue_arr_mem :
    ∀ (fuel : Nat) (s : List Char) (l : List Json) (rest : List Char),
      parseValue fuel s = some (Json.arr l, rest) → '[' ∈ s := by
  intro fuel s l rest h
  match fuel with
  | 0 => simp [parseValue] at h
  | Nat.succ f =>
    rw [parseValue] at h
    cases hdw : s.dropWhile jsonWs with
    | nil => rw [hdw] at h; simp at h
    | cons c cs =>
      rw [hdw] at h
      dsimp only at h
      have hmem : c = '[' → '[' ∈ s := by
        intro hc
        refine mem_of_mem_dropWhile jsonWs s '[' ?_
        rw [hdw, hc]
        exact List.mem_cons_self _ _
      split_ifs at h
      all_goals
        solve
        | exact hmem (by assumption)
        | simp_all
        | (split at h <;>
            solve
            | simp_all
            | (split at h <;> simp_all))

theorem parseJson_arr_mem {s : List Char} {l : List Json}
    (h : parseJson s = some (Json.arr l)) : '[' ∈ s := by
  rw [parseJson] at h
  cases hp : parseValue (s.length + 1) s with
  | none => rw [hp] at h; simp at h
  | some vr =>
    obtain ⟨v, rest⟩ := vr
    rw [hp] at h
    dsimp only at h
    split_ifs at h with hr
    simp only [Option.some.injEq] at h
    subst h
    exact parseValue_arr_mem _ _ _ _ hp

theorem jsonMatchSpan_none {s : List Char} (h : '[' ∉ s) : jsonMatchSpan s = none := by
  rw [jsonMatchSpan]
  cases hl : lastIdxOf ']' s <;> simp [firstIdxOf_none h]

/-! ## Validation-filter lemmas -/

theorem isNullB_true {c : Json} (h : isNullB c = true) : c = Json.null := by
  cases c <;> simp_all [isNullB]

theorem validateOne_ok (c : Json) (hc : c ≠ Json.null) :
    validateOne c = Except.ok (validCommentB c) := by
  have hget : ∀ k, jsGet c k = Except.ok (fieldOf c k) := by
    intro k
    cases c <;> first | exact absurd rfl hc | rfl
  simp only [validateOne, hget, validCommentB]
  cases h1 : truthy (fieldOf c pathKey) <;>
    cases h2 : truthy (fieldOf c messageKey) <;>
    cases h3 : truthy (fieldOf c lineKey) <;>
    cases h4 : truthy (fieldOf c severityKey) <;>
    cases h5 : sevOkB (fieldOf c severityKey) <;>
    cases h6 : lineOkB (fieldOf c lineKey) <;>
    simp [h1, h2, h3, h4, h5, h6]

theorem validateEx_no_null :
    ∀ (elems : List Json), containsNullB elems = false →
      validateEx elems = Except.ok (elems.filter validCommentB) := by
  intro elems
  induction elems with
  | nil => intro _; rfl
  | cons e es ih =>
    intro h
    rw [containsNullB, Bool.or_eq_false_iff] at h
    have hne : e ≠ Json.null := fun hN => by
      rw [hN] at h
      simp [isNullB] at h
    rw [validateEx, validateOne_ok e hne, ih h.2, List.filter_cons]

theorem validateEx_null :
    ∀ (elems : List Json), containsNullB elems = true →
      validateEx elems = Except.error () := by
  intro elems
  induction elems with
  | nil => intro h; simp [containsNullB] at h
  | cons e es ih =>
    intro h
    rw [containsNullB, Bool.or_eq_true] at h
    rcases h with h | h
    · rw [validateEx, isNullB_true h]
      rfl
    · rw [validateEx, ih h]
      cases hv : validateOne e <;> rfl

theorem validateEx_mem :
    ∀ (elems lst : List Json), validateEx elems = Except.ok lst →
      ∀ c ∈ lst, validCommentB c = true := by
  intro elems
  induction elems with
  | nil =>
    intro lst h c hc
    rw [validateEx] at h
    simp only [Except.ok.injEq] at h
    subst h
    simp at hc
  | cons e es ih =>
    intro lst h c hc
    rw [validateEx] at h
    cases hv : validateOne e with
    | error err => rw [hv] at h; simp at h
    | ok b =>
      rw [hv] at h
      cases hrest : validateEx es with
      | error err => rw [hrest] at h; simp at h
      | ok rest =>
        rw [hrest] at h
        simp only [Except.ok.injEq] at h
        subst h
        have hne : e ≠ Json.null := by
          intro hN
          rw [hN] at hv
          simp [validateOne, jsGet] at hv
        cases hb : b with
        | false =>
          rw [hb] at hc
          simp at hc
          exact ih rest hrest c hc
        | true =>
          rw [hb] at hc
          simp at hc
          rcases hc with hce | hcr
          · subst hce
            have := validateOne_ok c hne
            rw [hv, hb] at this
            simp only [Except.ok.injEq] at this
            exact this.symm
          · exact ih rest hrest c hcr

theorem mem_validatedOrEmpty {c : Json} {elems : List Json}
    (hc : c ∈ validatedOrEmpty elems) : validCommentB c = true := by
  rw [validatedOrEmpty] at hc
  cases h : validateEx elems with
  | error err => rw [h] at hc; simp at hc
  | ok lst => rw [h] at hc; exact validateEx_mem elems lst h c hc

theorem mem_arrOrEmpty {c : Json} {v : Json}
    (hc : c ∈ arrOrEmpty v) : validCommentB c = true := by
  cases v <;>
    first
    | exact mem_validatedOrEmpty hc
    | simp [arrOrEmpty] at hc

/-! ## Diff-segmenter lemmas -/

theorem splitLoop_flatten (hd : List (List Char)) :
    ∀ (ls cur : List (List Char)) (a d : Nat),
      ((splitLoop hd ls cur a d).map Chunk.body).flatten = cur ++ ls := by
  intro ls
  induction ls with
  | nil =>
    intro cur a d
    rw [splitLoop]
    split
    · simp
    · next h =>
      have hcur : cur = [] := by
        cases cur with
        | nil => rfl
        | cons x xs => simp at h
      simp [hcur]
  | cons l ls ih =>
    intro cur a d
    rw [splitLoop]
    split
    · split
      · simp [ih]
      · next h =>
        have hcur : cur = [] := by
          cases cur with
          | nil => rfl
          | cons x xs => simp at h
        simp [hcur, ih]
    · simp only []
      split
      · simp [ih]
      · simp [ih]

/-! ## Prompt-truncation lemmas -/

/-- Accumulated length of the lines, one extra per line for its newline. -/
def sumLens (ls : List (List Char)) : Nat :=
  (ls.map (fun l => l.length + 1)).sum

theorem splitOnNl_ne_nil : ∀ (cs : List Char), splitOnNl cs ≠ [] := by
  intro cs
  cases cs with
  | nil => simp [splitOnNl]
  | cons c cs' =>
    rw [splitOnNl]
    split
    · simp
    · split <;> simp

theorem sumLens_splitOnNl : ∀ (cs : List Char), sumLens (splitOnNl cs) = cs.length + 1 := by
  intro cs
  induction cs with
  | nil => rfl
  | cons c cs' ih =>
    rw [splitOnNl]
    split
    · simp only [sumLens, List.map_cons, List.sum_cons] at ih ⊢
      simp only [List.length_nil, List.length_cons]
      omega
    · cases hs : splitOnNl cs' with
      | nil => exact absurd hs (splitOnNl_ne_nil cs')
      | cons l ls =>
        rw [hs] at ih
        simp only [sumLens, List.map_cons, List.sum_cons, List.length_cons] at ih ⊢
        omega

theorem joinNl_cons_of_ne_nil (l : List Char) {r : List (List Char)} (h : r ≠ []) :
    joinNl (l :: r) = l ++ '\n' :: joinNl r := by
  cases r with
  | nil => exact absurd rfl h
  | cons x xs => rfl

theorem joinNl_length : ∀ (ls : List (List Char)), ls ≠ [] →
    (joinNl ls).length + 1 = sumLens ls := by
  intro ls
  induction ls with
  | nil => intro h; exact absurd rfl h
  | cons l r ih =>
    intro _
    cases r with
    | nil => simp [joinNl, sumLens]
    | cons x xs =>
      rw [joinNl_cons_of_ne_nil l (by simp)]
      have := ih (by simp)
      simp only [sumLens, List.map_cons, List.sum_cons] at this ⊢
      simp only [List.length_append, List.length_cons]
      omega

theorem truncLoop_spec (maxLen : Nat) :
    ∀ (ls : List (List Char)) (cur : Nat), cur ≤ maxLen + 1 →
      maxLen + 1 < cur + sumLens ls →
      ∃ k, truncLoop maxLen ls cur = ls.take k ++ [truncationMarker] ∧
        cur + (joinNl (truncLoop maxLen ls cur)).length ≤
          maxLen + 1 + truncationMarker.length := by
  intro ls
  induction ls with
  | nil =>
    intro cur h1 h2
    simp [sumLens] at h2
    omega
  | cons l ls ih =>
    intro cur h1 h2
    rw [truncLoop]
    by_cases hbr : cur + l.length > maxLen
    · refine ⟨0, ?_, ?_⟩
      · rw [if_pos hbr]
        simp
      · rw [if_pos hbr]
        simp only [joinNl]
        omega
    · have hlt : cur + l.length ≤ maxLen := by omega
      have h1' : cur + l.length + 1 ≤ maxLen + 1 := by omega
      have h2' : maxLen + 1 < (cur + l.length + 1) + sumLens ls := by
        simp only [sumLens, List.map_cons, List.sum_cons] at h2 ⊢
        omega
      obtain ⟨k, hk, hlen⟩ := ih (cur + l.length + 1) h1' h2'
      refine ⟨k + 1, ?_, ?_⟩
      · rw [if_neg hbr, hk]
        simp [List.take_succ_cons]
      · rw [if_neg hbr]
        have hne : truncLoop maxLen ls (cur + l.length + 1) ≠ [] := by
          rw [hk]
          simp
        rw [joinNl_cons_of_ne_nil l hne]
        simp only [List.length_append, List.length_cons]
        omega

/-! ## Map lemmas -/

theorem mapGet_mapSet_self {V : Type} (m : List (List Char × V)) (k : List Char) (v : V) :
    mapGet (mapSet m k v) k = some v := by
  induction m with
  | nil => simp [mapGet, mapSet, List.find?]
  | cons kv rest ih =>
    obtain ⟨k', v'⟩ := kv
    rw [mapSet]
    by_cases hk : k' = k
    · rw [if_pos hk]
      simp [mapGet, List.find?]
    · rw [if_neg hk]
      simp only [mapGet, List.find?] at ih ⊢
      have : (decide (k' = k)) = false := by simp [hk]
      rw [this]
      exact ih

theorem arrOrEmpty_cases (v : Json) :
    arrOrEmpty v = [] ∨ ∃ elems, arrOrEmpty v = validatedOrEmpty elems := by
  cases v
  case arr elems => exact Or.inr ⟨elems, rfl⟩
  all_goals exact Or.inl rfl

theorem splitOnNl_rep :
    ∀ n, splitOnNl (List.replicate n 'a' ++ '\n' :: '\n' :: ['x']) =
      [List.replicate n 'a', [], ['x']] := by
  intro n
  induction n with
  | zero => rfl
  | succ n ih =>
    rw [List.replicate_succ, List.cons_append, splitOnNl]
    simp only [ih]
    norm_num
    decide

/-! ## Claim theorems -/

/-- Claim C1 (code bug): `repairIncompleteJson` is claimed to turn a JSON
array of k complete object elements plus one partial element into the
valid JSON array of the first k elements.  On `[{"a":1},{"b":` the scanner
truncates to the last complete object but then appends the closing
characters counted over the WHOLE input (the dangling `{` included), so it
produces `[{"a":1}}]`, which does not parse, and the whole response is
dropped — while the claim-predicted output `[{"a":1}]` parses to exactly
the array of the first element. -/
theorem c1_repair_code_bug :
    repairIncompleteJson exC1 = exC1broken
    ∧ parseJson exC1broken = none
    ∧ parseGeminiResponse exC1 = []
    ∧ parseJson exC1claim = some (Json.arr [Json.obj [(("a").toList, Json.num 1)]]) :=
  ⟨rfl, rfl, rfl, rfl⟩

/-- Claim C2 (amended): concatenating the post-header body portions of all
chunks of `splitIntoHunks` reproduces the ENTIRE original diff line
sequence in order — the pre-hunk header lines reappear as the body of a
leading header-only chunk, and hunks longer than 100 lines are split
across consecutive chunks — rather than exactly the hunks. -/
theorem c2_chunk_coverage :
    ∀ (diffLines : List (List Char)),
      ((splitIntoHunks diffLines).map Chunk.body).flatten = diffLines := by
  intro d
  simp only [splitIntoHunks]
  split
  · simpa using splitLoop_flatten (captureHeaders d) d [] 0 0
  · simp

/-- Claim C2 counterexample: on the diff `h / @@ -1 +1 @@ / +x` the
concatenated body portions are not the single original hunk (a header-only
first chunk with body `h` precedes it), and on a 102-line single hunk the
hunk is split across two chunks, the second lacking the `@@` header. -/
theorem c2_counterexample :
    ((splitIntoHunks exC2a).map Chunk.body).flatten ≠
        [("@@ -1 +1 @@").toList, ("+x").toList]
    ∧ (splitIntoHunks exC2b).map Chunk.body =
        [("@@h").toList :: List.replicate 100 (("+a").toList), [("+a").toList]] :=
  ⟨by decide, by decide⟩

/-- Claim C3 (amended): on a parsed array with no `null` element, the
validation filter returns exactly the subsequence, in original order, of
elements with truthy path and message, one of the three severity strings,
and a NUMERIC line greater than 0 — integrality of the line is not
checked; and a `null` element raises a `TypeError` on its first property
access, which the enclosing handler turns into an empty batch (its good
neighbours are discarded too, not dropped individually). -/
theorem c3_validation_filter :
    ∀ (elems : List Json),
      (containsNullB elems = false →
        validatedOrEmpty elems = elems.filter validCommentB)
      ∧ (containsNullB elems = true → validatedOrEmpty elems = []) := by
  intro elems
  constructor
  · intro h
    rw [validatedOrEmpty, validateEx_no_null elems h]
  · intro h
    rw [validatedOrEmpty, validateEx_null elems h]

/-- Claim C3 witness: on the concrete null-free array `[exC3good, 1]` the
filter equals the predicted subsequence. -/
theorem c3_witness :
    containsNullB [exC3good, Json.num 1] = false
    ∧ validatedOrEmpty [exC3good, Json.num 1] =
        List.filter validCommentB [exC3good, Json.num 1] :=
  ⟨rfl, (c3_validation_filter [exC3good, Json.num 1]).1 rfl⟩

/-- Claim C3 counterexample: the element `exC3e15` with line 3/2 (JSON
`1.5`) is KEPT by the code although the claim's integer-line requirement
rejects it; and the batch `[null, exC3good]` yields `[]` although the
claim predicts the well-formed `exC3good` survives with the `null`
element dropped individually. -/
theorem c3_counterexample :
    (validatedOrEmpty [exC3e15]).length = 1
    ∧ (List.filter claimValidB [exC3e15]).length = 0
    ∧ (validatedOrEmpty [Json.null, exC3good]).length = 0
    ∧ (List.filter claimValidB [Json.null, exC3good]).length = 1 :=
  ⟨rfl, rfl, rfl, rfl⟩

/-- Claim C4 (amended): when the patch exceeds the computed budget, the
prompt diff is truncated only at line boundaries (it is a prefix of the
line list followed by the literal marker) and its length is at most the
budget plus the marker length PLUS ONE — the extra character being the
newline that joins the last kept line to the marker. -/
theorem c4_truncation_bound :
    ∀ (patch : List Char) (additions : Nat),
      calculateMaxDiffLength additions < patch.length →
      ∃ k, truncLoop (calculateMaxDiffLength additions) (splitOnNl patch) 0 =
          (splitOnNl patch).take k ++ [truncationMarker]
        ∧ (buildPromptDiff patch additions).length ≤
            calculateMaxDiffLength additions + truncationMarker.length + 1 := by
  intro patch additions h
  have h2 : calculateMaxDiffLength additions + 1 < 0 + sumLens (splitOnNl patch) := by
    rw [sumLens_splitOnNl]
    omega
  obtain ⟨k, hk, hlen⟩ :=
    truncLoop_spec (calculateMaxDiffLength additions) (splitOnNl patch) 0 (by omega) h2
  refine ⟨k, hk, ?_⟩
  simp only [buildPromptDiff]
  rw [if_pos h]
  omega

/-- Claim C4 witness: a 1501-character single-line patch with zero
additions exceeds the 1500-character budget and is truncated within the
amended bound. -/
theorem c4_witness :
    calculateMaxDiffLength 0 < (List.replicate 1501 'a').length
    ∧ ∃ k, truncLoop (calculateMaxDiffLength 0) (splitOnNl (List.replicate 1501 'a')) 0 =
          (splitOnNl (List.replicate 1501 'a')).take k ++ [truncationMarker]
        ∧ (buildPromptDiff (List.replicate 1501 'a') 0).length ≤
            calculateMaxDiffLength 0 + truncationMarker.length + 1 := by
  have h : calculateMaxDiffLength 0 < (List.replicate 1501 'a').length := by
    simp [calculateMaxDiffLength]
  exact ⟨h, c4_truncation_bound (List.replicate 1501 'a') 0 h⟩

/-- Claim C4 counterexample: on the 1502-character patch `exC4patch` the
rendered diff portion has length 1536, exceeding the claimed bound
budget + marker = 1500 + 35 = 1535 by the joining newline. -/
theorem c4_counterexample :
    calculateMaxDiffLength 0 < exC4patch.length
    ∧ calculateMaxDiffLength 0 + truncationMarker.length <
        (buildPromptDiff exC4patch 0).length := by
  have hM : calculateMaxDiffLength 0 = 1500 := rfl
  have hm : truncationMarker.length = 35 := rfl
  have hlen : exC4patch.length = 1502 := by simp [exC4patch]
  have hc : calculateMaxDiffLength 0 < exC4patch.length := by omega
  refine ⟨hc, ?_⟩
  have hsplit : splitOnNl exC4patch = [List.replicate 1499 'a', [], ['x']] :=
    splitOnNl_rep 1499
  have htr : truncLoop 1500 [List.replicate 1499 'a', [], ['x']] 0 =
      [List.replicate 1499 'a', [], truncationMarker] := by
    norm_num [truncLoop, List.length_replicate]
  have hj : (joinNl [List.replicate 1499 'a', [], truncationMarker]).length = 1536 := by
    have h := joinNl_length [List.replicate 1499 'a', [], truncationMarker] (by simp)
    have hs : sumLens [List.replicate 1499 'a', [], truncationMarker] = 1537 := by
      simp only [sumLens, List.map_cons, List.map_nil, List.sum_cons, List.sum_nil,
        List.length_replicate, List.length_nil, hm]
      norm_num
    omega
  simp only [buildPromptDiff]
  rw [if_pos hc, hM, hsplit, htr, hj]
  omega

/-- Claim C5 (confirmed): in both the polling and the webhook path the
idempotency check decides to review iff no record exists for the PR key or
the stored commit hash differs from the head commit; an unseen PR is
reviewed, and after recording `sha`, a trigger with `sha` is skipped while
a trigger with a different hash is reviewed. -/
theorem c5_idempotency_decision :
    ∀ (pm : PollMap) (wm : WebMap) (key sha sha2 id upd ts : List Char),
      (pollingShouldReview pm key sha = true ↔
        mapGet pm key = none ∨ ∃ r, mapGet pm key = some r ∧ r.head_sha ≠ sha)
      ∧ (webhookShouldReview wm key sha = true ↔
        mapGet wm key = none ∨ ∃ r, mapGet wm key = some r ∧ r.head_sha ≠ sha)
      ∧ (mapGet pm key = none → pollingShouldReview pm key sha = true)
      ∧ pollingShouldReview (mapSet pm key ⟨id, upd, sha⟩) key sha = false
      ∧ (sha2 ≠ sha → pollingShouldReview (mapSet pm key ⟨id, upd, sha⟩) key sha2 = true)
      ∧ (mapGet wm key = none → webhookShouldReview wm key sha = true)
      ∧ webhookShouldReview (mapSet wm key ⟨id, sha, ts⟩) key sha = false
      ∧ (sha2 ≠ sha → webhookShouldReview (mapSet wm key ⟨id, sha, ts⟩) key sha2 = true) := by
  intro pm wm key sha sha2 id upd ts
  refine ⟨?_, ?_, ?_, ?_, ?_, ?_, ?_, ?_⟩
  · rw [pollingShouldReview]
    cases h : mapGet pm key with
    | none => simp
    | some r => simp [ne_comm]
  · rw [webhookShouldReview]
    cases h : mapGet wm key with
    | none => simp
    | some r => simp
  · intro h
    simp [pollingShouldReview, h]
  · simp [pollingShouldReview, mapGet_mapSet_self]
  · intro hne
    simp [pollingShouldReview, mapGet_mapSet_self, hne]
  · intro h
    simp [webhookShouldReview, h]
  · simp [webhookShouldReview, mapGet_mapSet_self]
  · intro hne
    simp only [webhookShouldReview, mapGet_mapSet_self]
    simp [Ne.symm hne]

/-- Claim C5 witness: the concrete scenario of the claim, run on the empty
maps with two distinct hashes. -/
theorem c5_witness :
    mapGet ([] : PollMap) key0 = none
    ∧ pollingShouldReview [] key0 sha1c = true
    ∧ sha2c ≠ sha1c
    ∧ pollingShouldReview (mapSet [] key0 ⟨key0, key0, sha1c⟩) key0 sha1c = false
    ∧ pollingShouldReview (mapSet [] key0 ⟨key0, key0, sha1c⟩) key0 sha2c = true
    ∧ webhookShouldReview (mapSet ([] : WebMap) key0 ⟨key0, sha1c, key0⟩) key0 sha2c = true := by
  have t := c5_idempotency_decision [] [] key0 sha1c sha2c key0 key0 key0
  exact ⟨rfl, t.2.2.1 rfl, by decide, t.2.2.2.1, t.2.2.2.2.1 (by decide),
    t.2.2.2.2.2.2.2 (by decide)⟩

/-- Claim C6 (confirmed): `parseGeminiResponse` is a total function of the
raw text — no failure escapes to the caller in the embedding — every
element it returns passes the validation filter, the result is always
either the empty list or the validated subset of some parsed array, and
when the text contains no `[` at all (so no strategy can find a JSON
array) it returns the empty list. -/
theorem c6_parser_never_raises :
    ∀ (response : List Char),
      (∀ c ∈ parseGeminiResponse response, validCommentB c = true)
      ∧ (parseGeminiResponse response = [] ∨
          ∃ elems, parseGeminiResponse response = validatedOrEmpty elems)
      ∧ ('[' ∉ response → parseGeminiResponse response = []) := by
  intro response
  refine ⟨?_, ?_, ?_⟩
  · intro c hc
    rw [parseGeminiResponse] at hc
    split at hc
    · exact mem_validatedOrEmpty hc
    · split at hc
      · split at hc
        · exact mem_arrOrEmpty hc
        · split at hc
          · exact mem_arrOrEmpty hc
          · simp at hc
      · split at hc
        · split at hc
          · exact mem_arrOrEmpty hc
          · simp at hc
        · simp at hc
  · rw [parseGeminiResponse]
    split
    · exact Or.inr ⟨_, rfl⟩
    · split
      · split
        · exact arrOrEmpty_cases _
        · split
          · exact arrOrEmpty_cases _
          · exact Or.inl rfl
      · split
        · split
          · exact arrOrEmpty_cases _
          · exact Or.inl rfl
        · exact Or.inl rfl
  · intro h
    have h2 : jsonMatchSpan response = none := jsonMatchSpan_none h
    have h3 : firstIdxOf '[' response = none := firstIdxOf_none h
    rw [parseGeminiResponse]
    split
    · next elems heq =>
      exact absurd (mem_trimChars (parseJson_arr_mem heq)) h
    · rw [h2, h3]

/-- Claim C6 witness: a response with one valid comment amid prose yields
a singleton all of whose elements validate, and a response with no array
yields the empty list. -/
theorem c6_witness :
    (parseGeminiResponse exC6resp).all validCommentB = true
    ∧ (parseGeminiResponse exC6resp).length = 1
    ∧ parseGeminiResponse exC6none = [] :=
  ⟨List.all_eq_true.mpr (fun c hc => (c6_parser_never_raises exC6resp).1 c hc), rfl,
    (c6_parser_never_raises exC6none).2.2 (by decide)⟩

/-- Claim C7 (confirmed): the deduplicator returns exactly the comments
whose `path:line` key is absent from the existing-key set — a pure
set-difference that ignores message content: rewriting every message
commutes with the filter, so a comment at an already-commented path and
line stays suppressed whatever its message. -/
theorem c7_dedup_set_difference :
    ∀ (comments : List ReviewComment) (existing : List (List Char)),
      (∀ c, c ∈ filterDuplicateComments comments existing ↔
        c ∈ comments ∧ rcKey c ∉ existing)
      ∧ (∀ f : List Char → List Char,
          filterDuplicateComments (comments.map (msgMap f)) existing =
            (filterDuplicateComments comments existing).map (msgMap f)) := by
  intro comments existing
  constructor
  · intro c
    simp [filterDuplicateComments, List.mem_filter]
  · intro f
    rw [filterDuplicateComments, filterDuplicateComments, List.filter_map]
    rfl

/-- Concrete dedup scenario of the specification: with existing key
`a.ts:10`, of two new comments at `a.ts:10` and `a.ts:11` only the line-11
comment survives. -/
theorem dedup_spec_example :
    filterDuplicateComments
      [⟨("a.ts").toList, 10, Severity.error, ("m1").toList, none⟩,
       ⟨("a.ts").toList, 11, Severity.error, ("m2").toList, none⟩]
      [("a.ts:10").toList]
      = [⟨("a.ts").toList, 11, Severity.error, ("m2").toList, none⟩] := rfl

/-- Claim C8 (confirmed): whenever `postReviewComments` posts a review
(the comment list is nonempty), the review event is the literal
`COMMENT`; with no comments nothing is posted at all. -/
theorem c8_review_event_comment :
    ∀ (comments : List ReviewComment),
      (comments = [] → postReviewComments comments = none)
      ∧ (comments ≠ [] →
          (postReviewComments comments).map ReviewRequest.event =
            some (("COMMENT").toList)) := by
  intro comments
  constructor
  · intro h
    subst h
    rfl
  · intro h
    rw [postReviewComments, if_neg (by simpa using h)]
    rfl

/-- Claim C8 witness: a singleton comment list is posted with event
`COMMENT`; the empty list is not posted. -/
theorem c8_witness :
    ([exComment] : List ReviewComment) ≠ []
    ∧ (postReviewComments [exComment]).map ReviewRequest.event =
        some (("COMMENT").toList)
    ∧ postReviewComments [] = none :=
  ⟨by simp, (c8_review_event_comment [exComment]).2 (by simp),
    (c8_review_event_comment []).1 rfl⟩

/-- Claim C9 (confirmed): in both triggering paths the idempotency record
is written with the head commit exactly when `reviewPullRequest` resolves
— including every internal skip path — and left unchanged when it throws;
`reviewPullRequest` can only throw when the pull fetch, the file fetch or
the posting call throws, and in particular a draft PR resolves normally;
consequently a draft PR is recorded at its current head commit and the
polling decision will skip it at that commit from then on. -/
theorem c9_record_written_iff :
    ∀ (cfg : ReviewConfig) (env : ReviewEnv) (pm : PollMap) (wm : WebMap)
      (key id upd sha ts : List Char),
      (pollingShouldReview pm key sha = true → reviewPullRequest cfg env = Except.ok () →
        pollingScanStep pm cfg env key id upd sha = mapSet pm key ⟨id, upd, sha⟩)
      ∧ (pollingShouldReview pm key sha = true →
          ∀ e, reviewPullRequest cfg env = Except.error e →
            pollingScanStep pm cfg env key id upd sha = pm)
      ∧ (pollingShouldReview pm key sha = false →
          pollingScanStep pm cfg env key id upd sha = pm)
      ∧ (reviewPullRequest cfg env = Except.ok () →
          processPRReview wm cfg env key id sha ts = mapSet wm key ⟨id, sha, ts⟩)
      ∧ (∀ e, reviewPullRequest cfg env = Except.error e →
          processPRReview wm cfg env key id sha ts = wm)
      ∧ (∀ e, reviewPullRequest cfg env = Except.error e →
          env.pull = Except.error e ∨ env.files = Except.error e ∨ env.post = Except.error e)
      ∧ (∀ pd, env.pull = Except.ok pd → pd.draft = true →
          reviewPullRequest cfg env = Except.ok ())
      ∧ pollingShouldReview (mapSet pm key ⟨id, upd, sha⟩) key sha = false := by
  intro cfg env pm wm key id upd sha ts
  refine ⟨?_, ?_, ?_, ?_, ?_, ?_, ?_, ?_⟩
  · intro h1 h2
    rw [pollingScanStep, if_pos h1, h2]
  · intro h1 e h2
    rw [pollingScanStep, if_pos h1, h2]
  · intro h1
    rw [pollingScanStep, if_neg (by simp [h1])]
  · intro h
    rw [processPRReview, h]
  · intro e h
    rw [processPRReview, h]
  · intro e h
    rw [reviewPullRequest] at h
    by_cases ho : env.octokit = false
    · rw [if_pos ho] at h
      exact absurd h (by simp)
    · rw [if_neg ho] at h
      cases hp : env.pull with
      | error e' =>
        exact Or.inl rfl
      | ok pull =>
        rw [hp] at h
        dsimp only at h
        split_ifs at h
        cases hf : env.files with
        | error e' =>
          exact Or.inr (Or.inl rfl)
        | ok files =>
          rw [hf] at h
          dsimp only at h
          split_ifs at h
          split at h
          · exact Except.noConfusion h
          · exact Or.inr (Or.inr h)
  · intro pd hp hd
    rw [reviewPullRequest]
    by_cases ho : env.octokit = false
    · rw [if_pos ho]
    · rw [if_neg ho, hp]
      dsimp only
      rw [if_pos hd]
  · simp [pollingShouldReview, mapGet_mapSet_self]

/-- Claim C9 witness: a draft PR resolves normally, so both paths record
its head commit, and the polling decision then skips that commit. -/
theorem c9_witness :
    reviewPullRequest cfg0 envDraft = Except.ok ()
    ∧ processPRReview [] cfg0 envDraft key0 key0 sha1c key0 =
        mapSet [] key0 ⟨key0, sha1c, key0⟩
    ∧ pollingShouldReview [] key0 sha1c = true
    ∧ pollingScanStep [] cfg0 envDraft key0 key0 key0 sha1c =
        mapSet [] key0 ⟨key0, key0, sha1c⟩
    ∧ pollingShouldReview (mapSet [] key0 ⟨key0, key0, sha1c⟩) key0 sha1c = false := by
  have t := c9_record_written_iff cfg0 envDraft [] [] key0 key0 key0 sha1c key0
  have hok : reviewPullRequest cfg0 envDraft = Except.ok () :=
    t.2.2.2.2.2.2.1 ⟨true, ("open").toList, sha1c⟩ rfl rfl
  exact ⟨hok, t.2.2.2.1 hok, rfl, t.1 rfl hok, t.2.2.2.2.2.2.2⟩

theorem collectKeys_error :
    ∀ (rs : List ReviewInfo) (r : ReviewInfo), r ∈ rs →
      attributedBody r.body = true → r.commentsResult = Except.error () →
      collectKeys rs = Except.error () := by
  intro rs
  induction rs with
  | nil =>
    intro r h
    simp at h
  | cons x xs ih =>
    intro r hr hattr herr
    rcases List.mem_cons.mp hr with he | hm
    · subst he
      rw [collectKeys, if_pos hattr, herr]
    · rw [collectKeys]
      by_cases hx : attributedBody x.body = true
      · rw [if_pos hx]
        cases hc : x.commentsResult with
        | error e' => rfl
        | ok cs => rw [ih r hm hattr herr]
      · rw [if_neg hx]
        exact ih r hm hattr herr

/-- Claim C10 (confirmed): when fetching the existing attributed comments
fails — at the review-list level or in the nested per-review comment fetch
— `getExistingComments` returns the empty set instead of propagating, and
deduplication against the empty set keeps every new comment, so the review
proceeds with dedup effectively disabled rather than aborting. -/
theorem c10_existing_comments_fallback :
    ∀ (env : ReviewEnv),
      (∀ e, env.reviews = Except.error e → getExistingComments env = [])
      ∧ (∀ rs r, env.reviews = Except.ok rs → r ∈ rs →
          attributedBody r.body = true → r.commentsResult = Except.error () →
          getExistingComments env = [])
      ∧ (∀ cs, filterDuplicateComments cs [] = cs) := by
  intro env
  refine ⟨?_, ?_, ?_⟩
  · intro e h
    rw [getExistingComments, h]
  · intro rs r hrs hr hattr herr
    rw [getExistingComments, hrs]
    dsimp only
    rw [collectKeys_error rs r hr hattr herr]
  · intro cs
    simp [filterDuplicateComments]

/-- Claim C10 witness: a concrete environment with a failing review fetch
yields the empty key set, and a concrete comment survives dedup against
it. -/
theorem c10_witness :
    envRevFail.reviews = Except.error ()
    ∧ getExistingComments envRevFail = []
    ∧ filterDuplicateComments [exComment] [] = [exComment] :=
  ⟨rfl, (c10_existing_comments_fallback envRevFail).1 () rfl,
    (c10_existing_comments_fallback envRevFail).2.2 [exComment]⟩

end PRReviewer
